import Mathlib

set_option maxRecDepth 1024

/-!
Verification of the bar-merging and snapshot logic of `kucoin_btc_feed.py`
(`_ingest_bar`, `reshape`, and the serialization performed by `push_gist`).

Python values flowing through the script (parsed JSON from the TAAPI
response) are modelled by `JVal`.  Python `float` NaN and the two
infinities are modelled as distinguished constructors (`requests`'
`resp.json()` uses the stdlib parser, which accepts the `NaN` / `Infinity`
tokens); no float arithmetic is performed by the merge logic, values are
only stored and compared to `None`, so finite numbers are modelled as
rationals.

Python dicts are modelled as association lists.  The two dicts the merger
mutates (`bars : Dict[int, ...]` and the per-bar cells) are kept in
canonical key-sorted form, so Lean equality of the model coincides with
Python `==` on dicts (which ignores insertion order), and
`sorted(bars.items())` is the association list itself.  Read-only dicts
(the parsed records, used only through `.get`/`[...]`) keep their given
field order.

Exceptions raised by the Python code (`KeyError`, `TypeError`, `ValueError`,
`OverflowError`, `IndexError`, `AttributeError`, and the explicit
`RuntimeError` for "no usable timestamps") are modelled with `Except` over
`MergeError`.
-/

/-- Dict keys.  `SKey` is definitionally `String`; it carries a
`LinearOrder` lifted from the lexicographic order on the character list,
whose comparisons the kernel can evaluate (the library's order on
`String` itself decides comparisons by well-founded recursion, which does
not reduce definitionally).  The order is only used to keep the canonical
dict encoding sorted; any fixed total order works. -/
def SKey : Type := String

/-- Reads an `SKey` back at type `String`. -/
def SKey.str (k : SKey) : String := k

instance : LinearOrder SKey :=
  LinearOrder.lift' (fun s : String => s.data)
    (fun a b h => by cases a; cases b; exact congrArg String.mk h)

inductive JVal where
  | null
  | bool (b : Bool)
  | num (q : ℚ)
  | nan
  | inf
  | ninf
  | str (s : String)
  | arr (xs : List JVal)
  | obj (fields : List (SKey × JVal))

/-- Python truthiness (`bool(x)`) for the modelled values: `None`, `False`,
`0`, `""`, `[]`, `{}` are falsy; NaN and the infinities are truthy. -/
def JVal.truthy : JVal → Bool
  | .null => false
  | .bool b => b
  | .num q => q != 0
  | .nan => true
  | .inf => true
  | .ninf => true
  | .str s => s ≠ ""
  | .arr xs => !xs.isEmpty
  | .obj fs => !fs.isEmpty

/-- Python `x is None` for the modelled values. -/
def JVal.isNull : JVal → Bool
  | .null => true
  | _ => false

/-- Python `isinstance(x, list)`. -/
def JVal.isArr : JVal → Bool
  | .arr _ => true
  | _ => false

/-- Python `x or y`: returns `x` when truthy, otherwise `y`. -/
def pyOr (x y : JVal) : JVal :=
  if x.truthy then x else y

/-- First-match lookup in an association list (Python dict lookup; the
dicts we build never carry duplicate keys). -/
def alookup {κ α : Type} [LinearOrder κ] : List (κ × α) → κ → Option α
  | [], _ => none
  | (k', v) :: t, k => if k = k' then some v else alookup t k

/-- Python `d.get(k)`: `None` both when the key is absent and when the
stored value is `None`. -/
def pyGet (fields : List (SKey × JVal)) (k : SKey) : JVal :=
  (alookup fields k).getD .null

/-- Key-ordered insert/replace, keeping the association list sorted by key:
models `d[k] = v` on a canonically represented dict. -/
def ainsert {κ α : Type} [LinearOrder κ] : List (κ × α) → κ → α → List (κ × α)
  | [], k, v => [(k, v)]
  | (k', v') :: t, k, v =>
      if k < k' then (k, v) :: (k', v') :: t
      else if k = k' then (k, v) :: t
      else (k', v') :: ainsert t k v

/-- Python `d.setdefault(k, v)` on a canonically represented dict: insert only if
the key is absent. -/
def asetd {κ α : Type} [LinearOrder κ] (l : List (κ × α)) (k : κ) (v : α) : List (κ × α) :=
  match alookup l k with
  | some _ => l
  | none => ainsert l k v

inductive MergeError where
  | keyError (k : String)
  | typeError
  | valueError
  | overflowError
  | indexError
  | attributeError
  | noUsableData
deriving DecidableEq

/-- Truncation of a rational toward zero: Python `int()` applied to a
float value (for integral values this is the identity). -/
def pyTrunc (q : ℚ) : Int :=
  Int.tdiv q.num q.den

/-- Python `int(x)` on the modelled values: numbers truncate toward zero,
booleans map to 0/1, strings are parsed, NaN raises `ValueError`, the
infinities raise `OverflowError`, everything else raises `TypeError`. -/
def pyInt : JVal → Except MergeError Int
  | .num q => .ok (pyTrunc q)
  | .bool b => .ok (if b then 1 else 0)
  | .str s =>
      match s.toInt? with
      | some n => .ok n
      | none => .error .valueError
  | .nan => .error .valueError
  | .inf => .error .overflowError
  | .ninf => .error .overflowError
  | _ => .error .typeError

/-- Python `x[idx]` for a non-negative index: list indexing (IndexError
past the end), string indexing, `KeyError` for dicts (our dict keys are
strings, an integer key is never present), `TypeError` otherwise. -/
def pyIndex : JVal → Nat → Except MergeError JVal
  | .arr xs, idx =>
      match xs.get? idx with
      | some v => .ok v
      | none => .error .indexError
  | .str s, idx =>
      match s.toList.get? idx with
      | some ch => .ok (.str (String.mk [ch]))
      | none => .error .indexError
  | .obj _, _ => .error (.keyError "int")
  | _, _ => .error .typeError

/-- Python `d[k]` on a record dict: `KeyError` when the key is absent. -/
def pyItem (fields : List (SKey × JVal)) (k : SKey) : Except MergeError JVal :=
  match alookup fields k with
  | some v => .ok v
  | none => .error (.keyError k)

/-- A per-bar cell: the mutable dict holding the indicator values and the
OHLCV fields of one bar, in canonical key-sorted form. -/
abbrev Cell := List (SKey × JVal)

/-- The `bars` dict of `reshape`: timestamp-keyed cells, canonical
key-sorted form. -/
abbrev Bars := List (Int × Cell)

/-- The OHLCV keys, in the order of the tuple in `_ingest_bar`. -/
def ohlcvKeys : List SKey := ["open", "close", "high", "low", "volume"]

/-- The body of the OHLCV loop of `_ingest_bar`:
`v = ohlcv.get(k); if v is not None: cell.setdefault(k, v)`. -/
def setdStep (ohlcv : List (SKey × JVal)) (cl : Cell) (k : SKey) : Cell :=
  let v := pyGet ohlcv k
  if v.isNull then cl else asetd cl k v

/-- Models `_ingest_bar(bars, ts, indicator_id, value, ohlcv)`:
`cell = bars.setdefault(ts, {})`; `cell[indicator_id] = value`; then for
each OHLCV key `k`, `cell.setdefault(k, ohlcv.get(k))` when that value is
not `None`. -/
def ingest_bar (bars : Bars) (ts : Int) (indicator_id : SKey) (value : JVal)
    (ohlcv : List (SKey × JVal)) : Bars :=
  let cell := (alookup bars ts).getD []
  let cell := ainsert cell indicator_id value
  let cell := ohlcvKeys.foldl (setdStep ohlcv) cell
  ainsert bars ts cell

/-- One element of the TAAPI bulk response: `item["id"]` and
`item["result"]` (every response element carries both keys). -/
structure Item where
  id : SKey
  result : JVal

/-- Style 1 of `reshape`: iteration over a `list[dict]` result.  A non-dict
element raises `AttributeError` on `.get`; a record whose
`timestamp`/`timestampMs` lookup yields `None` is skipped; otherwise
`_ingest_bar(bars, int(ts_raw), indicator_id, res["value"], res)`. -/
def scalarLoop (indicator_id : SKey) (bars : Bars) : List JVal → Except MergeError Bars
  | [] => .ok bars
  | res :: rest =>
      match res with
      | .obj fields =>
          let ts_raw := pyOr (pyGet fields "timestamp") (pyGet fields "timestampMs")
          if ts_raw.isNull then scalarLoop indicator_id bars rest
          else do
            let ts ← pyInt ts_raw
            let v ← pyItem fields "value"
            scalarLoop indicator_id (ingest_bar bars ts indicator_id v fields) rest
      | _ => .error .attributeError

/-- Python `arr[idx] if arr else None`: the conditional OHLCV-array indexing of
the style-2 loop (truthiness of the array decides whether to index). -/
def condIndex (x : JVal) (idx : Nat) : Except MergeError JVal :=
  if x.truthy then pyIndex x idx else .ok .null

/-- Style 2 of `reshape`: `for idx, ts_raw in enumerate(ts_arr)`, building
the ohlcv dict (`open_arr[idx] if open_arr else None`, …), then
`_ingest_bar(bars, int(ts_raw), indicator_id, val_arr[idx], ohlcv)`. -/
def vecLoop (indicator_id : SKey) (val_arr o_arr c_arr h_arr l_arr v_arr : JVal)
    (bars : Bars) : Nat → List JVal → Except MergeError Bars
  | _, [] => .ok bars
  | idx, ts_raw :: rest => do
      let o ← condIndex o_arr idx
      let c ← condIndex c_arr idx
      let h ← condIndex h_arr idx
      let l ← condIndex l_arr idx
      let v ← condIndex v_arr idx
      let ohlcv := [("open", o), ("close", c), ("high", h), ("low", l), ("volume", v)]
      let ts ← pyInt ts_raw
      let value ← pyIndex val_arr idx
      vecLoop indicator_id val_arr o_arr c_arr h_arr l_arr v_arr
        (ingest_bar bars ts indicator_id value ohlcv) (idx + 1) rest

/-- The body of `reshape`'s `for item in data` loop for one item:
dispatch on the shape of `item["result"]` (list → style 1; dict whose
`timestamp`/`timestampMs` is a list → style 2, with
`val_arr = res_obj["value"]` raising `KeyError` when absent; anything
else is skipped). -/
def processItem (bars : Bars) (item : Item) : Except MergeError Bars :=
  match item.result with
  | .arr resList => scalarLoop item.id bars resList
  | .obj fields =>
      let tsv := pyOr (pyGet fields "timestamp") (pyGet fields "timestampMs")
      match tsv with
      | .arr ts_arr =>
          match alookup fields "value" with
          | none => .error (.keyError "value")
          | some val_arr =>
              vecLoop item.id val_arr (pyGet fields "open") (pyGet fields "close")
                (pyGet fields "high") (pyGet fields "low") (pyGet fields "volume")
                bars 0 ts_arr
      | _ => .ok bars
  | _ => .ok bars

/-- The whole merging loop of `reshape`: fold `processItem` over the
response items, starting from the empty `bars` dict. -/
def mergeBars (data : List Item) : Except MergeError Bars :=
  data.foldlM processItem []

def PAIR : String := "BTC/USDT"
def TF : String := "15m"
def LIMIT : Nat := 3000

/-- Python `l[-n:]` for `n > 0`: the last `n` elements. -/
def takeLast {α : Type} (n : Nat) (l : List α) : List α :=
  l.drop (l.length - n)

/-- Python `{"ts": t, **vals}`: a fresh dict with the bar's timestamp plus the
cell's entries (the cell's entries win on a key collision). -/
def barToRecord (t : Int) (vals : Cell) : Cell :=
  vals.foldl (fun c kv => ainsert c kv.1 kv.2) (ainsert ([] : Cell) "ts" (.num t))

/-- Two-digit zero padding for time fields. -/
def pad2 (n : Int) : String :=
  if n < 10 then "0" ++ toString n else toString n

/-- Four-digit zero padding for the year. -/
def pad4 (n : Int) : String :=
  if n < 10 then "000" ++ toString n
  else if n < 100 then "00" ++ toString n
  else if n < 1000 then "0" ++ toString n
  else toString n

/-- Proleptic-Gregorian civil date from days since the Unix epoch
(the conversion `datetime.utcfromtimestamp` performs). -/
def civilFromDays (z : Int) : Int × Int × Int :=
  let z := z + 719468
  let era := Int.fdiv z 146097
  let doe := z - era * 146097
  let yoe := Int.fdiv (doe - Int.fdiv doe 1460 + Int.fdiv doe 36524 - Int.fdiv doe 146096) 365
  let y := yoe + era * 400
  let doy := doe - (365 * yoe + Int.fdiv yoe 4 - Int.fdiv yoe 100)
  let mp := Int.fdiv (5 * doy + 2) 153
  let d := doy - Int.fdiv (153 * mp + 2) 5 + 1
  let m := mp + (if mp < 10 then 3 else -9)
  (y + (if m ≤ 2 then 1 else 0), m, d)

/-- Models `iso(ms)` for an integral number of epoch seconds:
`datetime.utcfromtimestamp(...).isoformat(timespec="seconds") + "Z"`. -/
def isoOfSecs (t : Int) : String :=
  let days := Int.fdiv t 86400
  let sod := t - 86400 * days
  let hh := Int.fdiv sod 3600
  let mm := Int.fdiv (sod - 3600 * hh) 60
  let ss := sod - 3600 * hh - 60 * mm
  let ymd := civilFromDays days
  pad4 ymd.1 ++ "-" ++ pad2 ymd.2.1 ++ "-" ++ pad2 ymd.2.2 ++ "T" ++
    pad2 hh ++ ":" ++ pad2 mm ++ ":" ++ pad2 ss ++ "Z"

/-- Models `iso(ms)` on a modelled value: `ms / 1000` is Python true division and
`isoformat(timespec="seconds")` truncates the sub-second part, which for
the resulting UTC instant is a floor — `⌊q / 1000⌋ = q.num.fdiv (q.den * 1000)`.
Non-numeric input raises (`TypeError` from the division); NaN/infinite
input raises inside `utcfromtimestamp` (`ValueError`/`OverflowError`). -/
def isoE : JVal → Except MergeError String
  | .num q => .ok (isoOfSecs (Int.fdiv q.num (q.den * 1000)))
  | .bool _ => .ok (isoOfSecs 0)
  | .nan => .error .valueError
  | .inf => .error .overflowError
  | .ninf => .error .overflowError
  | _ => .error .typeError

/-- Models `iso` on an integer count of epoch milliseconds (the
`int(time.time() * 1000)` call site). -/
def isoMs (ms : Int) : String :=
  isoOfSecs (Int.fdiv ms 1000)

/-- Models `PAIR.replace("/", "")`: the pattern is the single character `/` and
the replacement is empty, so the call removes every slash. -/
def stripSlash (s : String) : String :=
  String.mk (s.data.filter (fun ch => ch ≠ '/'))

/-- The dict returned by `reshape`, field for field and in the source's
key order.  `timestamp` is `last["ts"]` (a stored value, hence a `JVal`);
the OHLCV/indicator fields are `last.get(...)` (so `null` when absent). -/
structure Snapshot where
  timestamp : JVal
  datetime_utc : String
  symbol : String
  granularity : String
  price : JVal
  high : JVal
  low : JVal
  vol : JVal
  ema20 : JVal
  ema50 : JVal
  ema200 : JVal
  rsi14 : JVal
  vwap : JVal
  atr14 : JVal
  last_candles : List Cell
  funding_rate : JVal
  open_interest : JVal
  order_book : JVal
  generated_at : String

/-- Models `reshape(data)`: merge, fail with the `RuntimeError` ("no usable
timestamps") when no bars were produced, order by timestamp, keep the last
`LIMIT` bars, and assemble the snapshot dict from the freshest bar.
`now` models `int(time.time() * 1000)`. -/
def reshape (data : List Item) (now : Int) : Except MergeError Snapshot :=
  match mergeBars data with
  | .error e => .error e
  | .ok bars =>
    if bars.isEmpty then .error .noUsableData
    else
      let ordered := (takeLast LIMIT bars).map (fun p => barToRecord p.1 p.2)
      match ordered.getLast? with
      | none => .error .indexError
      | some last =>
          match alookup last "ts" with
          | none => .error (.keyError "ts")
          | some tsv =>
              match isoE tsv with
              | .error e => .error e
              | .ok dtstr =>
                  .ok {
                    timestamp := tsv
                    datetime_utc := dtstr
                    symbol := stripSlash PAIR
                    granularity := TF
                    price := pyGet last "close"
                    high := pyGet last "high"
                    low := pyGet last "low"
                    vol := pyGet last "volume"
                    ema20 := pyGet last "ema20"
                    ema50 := pyGet last "ema50"
                    ema200 := pyGet last "ema200"
                    rsi14 := pyGet last "rsi14"
                    vwap := pyGet last "vwap"
                    atr14 := pyGet last "atr14"
                    last_candles := ordered
                    funding_rate := .null
                    open_interest := .null
                    order_book := .null
                    generated_at := isoMs now
                  }

/-- The JSON-document structure `push_gist` uploads: the snapshot dict with
`last_candles` as an array of per-bar dicts, in the source's key order. -/
def snapshotToJVal (s : Snapshot) : JVal :=
  .obj [("timestamp", s.timestamp), ("datetime_utc", .str s.datetime_utc),
        ("symbol", .str s.symbol), ("granularity", .str s.granularity),
        ("price", s.price), ("high", s.high), ("low", s.low), ("vol", s.vol),
        ("ema20", s.ema20), ("ema50", s.ema50), ("ema200", s.ema200),
        ("rsi14", s.rsi14), ("vwap", s.vwap), ("atr14", s.atr14),
        ("last_candles", .arr (s.last_candles.map .obj)),
        ("funding_rate", s.funding_rate), ("open_interest", s.open_interest),
        ("order_book", s.order_book), ("generated_at", .str s.generated_at)]

mutual
/-- The token content of `json.dumps(payload, indent=2, ensure_ascii=False)`
(the call in `push_gist`), value by value.  `json.dumps` keeps its default
`allow_nan=True`, so non-finite floats serialize as the bare tokens `NaN`,
`Infinity` and `-Infinity`.  Whitespace/indentation, the decimal rendering
of non-integral numbers and string escaping are abstracted; the claims
checked against this function only concern token content. -/
def dumps : JVal → String
  | .null => "null"
  | .bool true => "true"
  | .bool false => "false"
  | .num q => if q.den = 1 then toString q.num else toString q
  | .nan => "NaN"
  | .inf => "Infinity"
  | .ninf => "-Infinity"
  | .str s => "\"" ++ s ++ "\""
  | .arr xs => "[" ++ dumpsList xs ++ "]"
  | .obj fs => "\x7b" ++ dumpsFields fs ++ "\x7d"

def dumpsList : List JVal → String
  | [] => ""
  | [x] => dumps x
  | x :: y :: t => dumps x ++ ", " ++ dumpsList (y :: t)

def dumpsFields : List (SKey × JVal) → String
  | [] => ""
  | [(k, v)] => "\"" ++ k.str ++ "\": " ++ dumps v
  | (k, v) :: p :: t => "\"" ++ k.str ++ "\": " ++ dumps v ++ ", " ++ dumpsFields (p :: t)
end

/-- The serialized document of one run: `reshape` followed by the
`json.dumps` of `push_gist`. -/
def gistContent (data : List Item) (now : Int) : Except MergeError String :=
  (reshape data now).map (fun s => dumps (snapshotToJVal s))

/-- Whether `pat` occurs at the start of `s`. -/
def leadsWith : List Char → List Char → Bool
  | [], _ => true
  | _ :: _, [] => false
  | a :: as, b :: bs => a == b && leadsWith as bs

/-- Whether `pat` occurs somewhere in `s` (substring of the character list). -/
def hasChunk (pat : List Char) : List Char → Bool
  | [] => leadsWith pat []
  | c :: rest => leadsWith pat (c :: rest) || hasChunk pat rest

/-! ### Normalized contributions

`_ingest_bar` reads its `ohlcv` argument only through `.get` on the five
OHLCV keys, so each call is determined by a normalized record of the
timestamp, indicator id, value and the five looked-up OHLCV values
(`null` standing for absent-or-None).  The merge loop is proved equal to a
fold of `ingestC` over the extracted contribution list; all algebraic
reasoning happens on that normal form. -/

structure Contrib where
  ts : Int
  id : SKey
  value : JVal
  op : JVal
  cl : JVal
  hi : JVal
  lo : JVal
  vo : JVal

/-- The five OHLCV values of a normalized contribution, by key. -/
def ohlcvGet (c : Contrib) (k : SKey) : JVal :=
  if k = "open" then c.op
  else if k = "close" then c.cl
  else if k = "high" then c.hi
  else if k = "low" then c.lo
  else if k = "volume" then c.vo
  else .null

/-- The five-entry dict a normalized contribution stands for. -/
def normDict (c : Contrib) : List (SKey × JVal) :=
  [("open", c.op), ("close", c.cl), ("high", c.hi), ("low", c.lo), ("volume", c.vo)]

/-- Applies `_ingest_bar` to a normalized contribution. -/
def ingestC (bars : Bars) (c : Contrib) : Bars :=
  ingest_bar bars c.ts c.id c.value (normDict c)

/-- Normalize one `_ingest_bar` call. -/
def toContrib (ts : Int) (indicator_id : SKey) (v : JVal)
    (ohlcv : List (SKey × JVal)) : Contrib :=
  ⟨ts, indicator_id, v, pyGet ohlcv "open", pyGet ohlcv "close", pyGet ohlcv "high",
    pyGet ohlcv "low", pyGet ohlcv "volume"⟩

/-- The contributions extracted by the style-1 loop (same skips, same
exceptions, in the same order, independent of the `bars` state). -/
def scalarContribs (indicator_id : SKey) : List JVal → Except MergeError (List Contrib)
  | [] => .ok []
  | res :: rest =>
      match res with
      | .obj fields =>
          let ts_raw := pyOr (pyGet fields "timestamp") (pyGet fields "timestampMs")
          if ts_raw.isNull then scalarContribs indicator_id rest
          else do
            let ts ← pyInt ts_raw
            let v ← pyItem fields "value"
            let cs ← scalarContribs indicator_id rest
            .ok (toContrib ts indicator_id v fields :: cs)
      | _ => .error .attributeError

/-- The contributions extracted by the style-2 loop. -/
def vecContribs (indicator_id : SKey) (val_arr o_arr c_arr h_arr l_arr v_arr : JVal) :
    Nat → List JVal → Except MergeError (List Contrib)
  | _, [] => .ok []
  | idx, ts_raw :: rest => do
      let o ← condIndex o_arr idx
      let c ← condIndex c_arr idx
      let h ← condIndex h_arr idx
      let l ← condIndex l_arr idx
      let v ← condIndex v_arr idx
      let ohlcv := [("open", o), ("close", c), ("high", h), ("low", l), ("volume", v)]
      let ts ← pyInt ts_raw
      let value ← pyIndex val_arr idx
      let cs ← vecContribs indicator_id val_arr o_arr c_arr h_arr l_arr v_arr (idx + 1) rest
      .ok (toContrib ts indicator_id value ohlcv :: cs)

/-- The contributions of one response item. -/
def itemContribs (item : Item) : Except MergeError (List Contrib) :=
  match item.result with
  | .arr resList => scalarContribs item.id resList
  | .obj fields =>
      let tsv := pyOr (pyGet fields "timestamp") (pyGet fields "timestampMs")
      match tsv with
      | .arr ts_arr =>
          match alookup fields "value" with
          | none => .error (.keyError "value")
          | some val_arr =>
              vecContribs item.id val_arr (pyGet fields "open") (pyGet fields "close")
                (pyGet fields "high") (pyGet fields "low") (pyGet fields "volume") 0 ts_arr
      | _ => .ok []
  | _ => .ok []

/-- The contributions of a whole batch, with the loop's error order. -/
def extractAll : List Item → Except MergeError (List Contrib)
  | [] => .ok []
  | it :: data => do
      let cs ← itemContribs it
      let rest ← extractAll data
      .ok (cs ++ rest)

/-- Fold of normalized ingestion from the empty `bars` dict. -/
def mergeContribs (cs : List Contrib) : Bars :=
  cs.foldl ingestC []

/-! ### Per-slot semantics

For a fixed bar timestamp and cell key, one ingested contribution acts on
the stored value as one of three functions: identity, `fillF w`
(`setdefault`: write only when unset) or `constF a` (plain assignment).
The merge of a contribution list acts slot-wise as the composition of
these actions. -/

inductive SlotFun where
  | idF
  | fillF (w : JVal)
  | constF (a : JVal)

def SlotFun.app : SlotFun → Option JVal → Option JVal
  | .idF, v => v
  | .fillF w, v => match v with | none => some w | some x => some x
  | .constF a, _ => some a

/-- Sequential composition: first `f`, then `g`. -/
def compAfter : SlotFun → SlotFun → SlotFun
  | f, .idF => f
  | _, .constF a => .constF a
  | .idF, .fillF w => .fillF w
  | .fillF u, .fillF _ => .fillF u
  | .constF a, .fillF _ => .constF a

/-- The action of one contribution on the slot `(ts, k)`: the assignment
`cell[indicator_id] = value` wins over the `setdefault` of the same call,
so an id equal to `k` acts as `constF`. -/
def slotAction (ts : Int) (k : SKey) (c : Contrib) : SlotFun :=
  if c.ts = ts then
    if c.id = k then .constF c.value
    else if k ∈ ohlcvKeys ∧ (ohlcvGet c k).isNull = false then .fillF (ohlcvGet c k)
    else .idF
  else .idF

/-- Slot-wise fold of the actions of a contribution list. -/
def appFold (ts : Int) (k : SKey) (cs : List Contrib) (v : Option JVal) : Option JVal :=
  cs.foldl (fun v c => (slotAction ts k c).app v) v

/-- The value stored at bar `ts`, key `k` (`None`/absent collapsed). -/
def cellVal (bars : Bars) (ts : Int) (k : SKey) : Option JVal :=
  (alookup bars ts).bind (fun cell => alookup cell k)

/-- The first non-None OHLCV value for `(ts, k)` carried by a contribution
list, in merge order. -/
def firstWrite (cs : List Contrib) (ts : Int) (k : SKey) : Option JVal :=
  cs.findSome? (fun c =>
    if c.ts = ts ∧ (ohlcvGet c k).isNull = false then some (ohlcvGet c k) else none)

/-- The contributions assigning to `(ts, indicator id)`, in merge order. -/
def assigns (cs : List Contrib) (ts : Int) (i : SKey) : List Contrib :=
  cs.filter (fun c => decide (c.ts = ts ∧ c.id = i))

/-! ### Constructions used by individual claims -/

/-- A result object that matches neither accepted shape: not a list, and
not a dict whose `timestamp`/`timestampMs` lookup is a list. -/
def unrecognized : JVal → Bool
  | .arr _ => false
  | .obj fs => !(pyOr (pyGet fs "timestamp") (pyGet fs "timestampMs")).isArr
  | _ => true

/-- Positional entry of an optional parallel array (`null` stands for an
absent array). -/
def entryAt (x : JVal) (i : Nat) : JVal :=
  match x with
  | .arr xs => (xs.get? i).getD .null
  | _ => .null

/-- A vector-shaped item: parallel `timestamp`/`value` arrays plus the
five optional OHLCV arrays (`null` when absent). -/
def vecItem (i : SKey) (tss vss : List JVal) (o c h l w : JVal) : Item :=
  ⟨i, .obj [("timestamp", .arr tss), ("value", .arr vss), ("open", o),
            ("close", c), ("high", h), ("low", l), ("volume", w)]⟩

/-- The positionally-equivalent scalar records, from index `i` on. -/
def scalarRecsFrom (vss : List JVal) (o c h l w : JVal) : Nat → List JVal → List JVal
  | _, [] => []
  | i, t :: rest =>
      .obj [("timestamp", t), ("value", (vss.get? i).getD .null), ("open", entryAt o i),
            ("close", entryAt c i), ("high", entryAt h i), ("low", entryAt l i),
            ("volume", entryAt w i)] :: scalarRecsFrom vss o c h l w (i + 1) rest

/-- The scalar-shaped item positionally equivalent to `vecItem`. -/
def scalarItem (i : SKey) (tss vss : List JVal) (o c h l w : JVal) : Item :=
  ⟨i, .arr (scalarRecsFrom vss o c h l w 0 tss)⟩

/-- An optional parallel array for a series of `n` points: absent, or an
array of exactly `n` entries. -/
def arrOk (n : Nat) (x : JVal) : Prop :=
  x = .null ∨ ∃ xs, x = .arr xs ∧ xs.length = n

/-- Strict key-sortedness: the invariant of the canonical dict encoding. -/
def KSorted {κ α : Type} [LinearOrder κ] (l : List (κ × α)) : Prop :=
  l.Pairwise (fun a b => a.1 < b.1)

/-- Well-formedness of a `bars` dict: sorted keys and sorted cells. -/
def BarsWF (bars : Bars) : Prop :=
  KSorted bars ∧ ∀ p ∈ bars, KSorted p.2

/-- Composite slot action of a contribution list. -/
def slotFold (ts : Int) (k : SKey) (cs : List Contrib) : SlotFun :=
  cs.foldl (fun f c => compAfter f (slotAction ts k c)) .idF

/-! ## Lemmas on the canonical association lists -/

theorem alookup_ainsert_self {κ α : Type} [LinearOrder κ] (l : List (κ × α)) (k : κ) (v : α) :
    alookup (ainsert l k v) k = some v := by
  induction l with
  | nil => simp [ainsert, alookup]
  | cons p t ih =>
      obtain ⟨k', v'⟩ := p
      by_cases h1 : k < k'
      · simp [ainsert, h1, alookup]
      · by_cases h2 : k = k'
        · simp [ainsert, h1, h2, alookup]
        · simp [ainsert, h1, h2, alookup, ih]

theorem alookup_ainsert_ne {κ α : Type} [LinearOrder κ] (l : List (κ × α)) {k k' : κ} (v : α)
    (h : k' ≠ k) : alookup (ainsert l k v) k' = alookup l k' := by
  induction l with
  | nil => simp [ainsert, alookup, h]
  | cons p t ih =>
      obtain ⟨k₀, v₀⟩ := p
      by_cases h1 : k < k₀
      · simp [ainsert, h1, alookup, h]
      · by_cases h2 : k = k₀
        · subst h2; simp [ainsert, h1, alookup, h]
        · by_cases h3 : k' = k₀
          · simp [ainsert, h1, h2, alookup, h3]
          · simp [ainsert, h1, h2, alookup, h3, ih]

theorem mem_ainsert {κ α : Type} [LinearOrder κ] (l : List (κ × α)) (k : κ) (v : α)
    (p : κ × α) (hp : p ∈ ainsert l k v) : p = (k, v) ∨ p ∈ l := by
  induction l with
  | nil => simpa [ainsert] using hp
  | cons q t ih =>
      obtain ⟨k₀, v₀⟩ := q
      by_cases h1 : k < k₀
      · simp only [ainsert, if_pos h1, List.mem_cons] at hp
        rcases hp with h | h | h
        · exact Or.inl h
        · exact Or.inr (by simp [h])
        · exact Or.inr (by simp [h])
      · by_cases h2 : k = k₀
        · simp only [ainsert, if_neg h1, if_pos h2, List.mem_cons] at hp
          rcases hp with h | h
          · exact Or.inl h
          · exact Or.inr (by simp [h])
        · simp only [ainsert, if_neg h1, if_neg h2, List.mem_cons] at hp
          rcases hp with h | h
          · exact Or.inr (by simp [h])
          · rcases ih h with h' | h'
            · exact Or.inl h'
            · exact Or.inr (by simp [h'])

theorem KSorted_ainsert {κ α : Type} [LinearOrder κ] {l : List (κ × α)} (k : κ) (v : α)
    (h : KSorted l) : KSorted (ainsert l k v) := by
  induction l with
  | nil => simp [ainsert, KSorted]
  | cons p t ih =>
      obtain ⟨k₀, v₀⟩ := p
      rw [KSorted, List.pairwise_cons] at h
      obtain ⟨h1, h2⟩ := h
      by_cases hc1 : k < k₀
      · rw [KSorted, ainsert, if_pos hc1]
        refine List.Pairwise.cons ?_ ?_
        · intro b hb
          rcases List.mem_cons.mp hb with hb | hb
          · simp [hb, hc1]
          · exact lt_trans hc1 (h1 b hb)
        · exact List.Pairwise.cons h1 h2
      · by_cases hc2 : k = k₀
        · rw [KSorted, ainsert, if_neg hc1, if_pos hc2]
          subst hc2
          exact List.Pairwise.cons h1 h2
        · rw [KSorted, ainsert, if_neg hc1, if_neg hc2]
          refine List.Pairwise.cons ?_ (ih h2)
          intro b hb
          rcases mem_ainsert t k v b hb with hb' | hb'
          · subst hb'
            exact lt_of_le_of_ne (not_lt.mp hc1) (Ne.symm hc2)
          · exact h1 b hb'

theorem KSorted_asetd {κ α : Type} [LinearOrder κ] {l : List (κ × α)} (k : κ) (v : α)
    (h : KSorted l) : KSorted (asetd l k v) := by
  rw [asetd]
  cases alookup l k with
  | some _ => exact h
  | none => exact KSorted_ainsert k v h

theorem alookup_asetd_ne {κ α : Type} [LinearOrder κ] (l : List (κ × α)) {k k' : κ} (v : α)
    (h : k' ≠ k) : alookup (asetd l k v) k' = alookup l k' := by
  rw [asetd]
  cases alookup l k with
  | some _ => rfl
  | none => exact alookup_ainsert_ne l v h

theorem alookup_asetd_self {κ α : Type} [LinearOrder κ] (l : List (κ × α)) (k : κ) (v : α) :
    alookup (asetd l k v) k = some ((alookup l k).getD v) := by
  rw [asetd]
  cases hl : alookup l k with
  | some x => simp [hl]
  | none => simp [alookup_ainsert_self]

theorem mem_keys_of_alookup {κ α : Type} [LinearOrder κ] {l : List (κ × α)} {k : κ} {v : α}
    (h : alookup l k = some v) : k ∈ l.map Prod.fst := by
  induction l with
  | nil => simp [alookup] at h
  | cons p t ih =>
      obtain ⟨k₀, v₀⟩ := p
      by_cases hc : k = k₀
      · simp [hc]
      · rw [alookup, if_neg hc] at h
        simpa using Or.inr (ih h)

theorem alookup_isSome_ainsert {κ α : Type} [LinearOrder κ] (l : List (κ × α)) (k k' : κ)
    (v : α) (h : (alookup l k').isSome) : (alookup (ainsert l k v) k').isSome := by
  by_cases hc : k' = k
  · subst hc; simp [alookup_ainsert_self]
  · rwa [alookup_ainsert_ne l v hc]

/-- Canonical dicts are determined by their lookups. -/
theorem alist_ext {κ α : Type} [LinearOrder κ] {l₁ l₂ : List (κ × α)}
    (s₁ : KSorted l₁) (s₂ : KSorted l₂)
    (h : ∀ k, alookup l₁ k = alookup l₂ k) : l₁ = l₂ := by
  induction l₁ generalizing l₂ with
  | nil =>
      cases l₂ with
      | nil => rfl
      | cons p t =>
          obtain ⟨k₂, v₂⟩ := p
          have := h k₂
          simp [alookup] at this
  | cons p t₁ ih =>
      obtain ⟨k₁, v₁⟩ := p
      cases l₂ with
      | nil =>
          have := h k₁
          simp [alookup] at this
      | cons q t₂ =>
          obtain ⟨k₂, v₂⟩ := q
          rw [KSorted, List.pairwise_cons] at s₁ s₂
          obtain ⟨hs1, hs1'⟩ := s₁
          obtain ⟨hs2, hs2'⟩ := s₂
          have hk : k₁ = k₂ := by
            by_cases hc : k₁ = k₂
            · exact hc
            · exfalso
              have h₁ := h k₁
              have h₂ := h k₂
              simp [alookup, hc, Ne.symm hc] at h₁ h₂
              have m1 : k₁ ∈ t₂.map Prod.fst := mem_keys_of_alookup h₁.symm
              have m2 : k₂ ∈ t₁.map Prod.fst := mem_keys_of_alookup h₂
              obtain ⟨b1, hb1, hb1'⟩ := List.mem_map.mp m1
              obtain ⟨b2, hb2, hb2'⟩ := List.mem_map.mp m2
              have l1 : k₂ < k₁ := hb1' ▸ hs2 b1 hb1
              have l2 : k₁ < k₂ := hb2' ▸ hs1 b2 hb2
              exact absurd (lt_trans l1 l2) (lt_irrefl _)
          subst hk
          have hv : v₁ = v₂ := by
            have h₁ := h k₁
            simp [alookup] at h₁
            exact h₁
          subst hv
          refine congrArg _ (ih hs1' hs2' ?_)
          intro k
          by_cases hc : k = k₁
          · subst hc
            have n1 : alookup t₁ k = none := by
              cases hl : alookup t₁ k with
              | none => rfl
              | some x =>
                  obtain ⟨b, hb, hb'⟩ := List.mem_map.mp (mem_keys_of_alookup hl)
                  exact absurd (hb' ▸ hs1 b hb) (lt_irrefl _)
            have n2 : alookup t₂ k = none := by
              cases hl : alookup t₂ k with
              | none => rfl
              | some x =>
                  obtain ⟨b, hb, hb'⟩ := List.mem_map.mp (mem_keys_of_alookup hl)
                  exact absurd (hb' ▸ hs2 b hb) (lt_irrefl _)
            rw [n1, n2]
          · have := h k
            rwa [alookup, if_neg hc, alookup, if_neg hc] at this

theorem mem_of_alookup {κ α : Type} [LinearOrder κ] {l : List (κ × α)} {k : κ} {v : α}
    (h : alookup l k = some v) : (k, v) ∈ l := by
  induction l with
  | nil => simp [alookup] at h
  | cons p t ih =>
      obtain ⟨k₀, v₀⟩ := p
      by_cases hc : k = k₀
      · subst hc
        rw [alookup, if_pos rfl] at h
        exact List.mem_cons.mpr (Or.inl (by simpa using Option.some.inj h.symm))
      · rw [alookup, if_neg hc] at h
        exact List.mem_cons.mpr (Or.inr (ih h))


/-! ## The setdefault fold of `_ingest_bar`, slot-wise -/

theorem alookup_setdStep_ne (ohlcv : List (SKey × JVal)) (cl : Cell) {k k₀ : SKey}
    (h : k ≠ k₀) : alookup (setdStep ohlcv cl k₀) k = alookup cl k := by
  simp only [setdStep]
  split
  · rfl
  · exact alookup_asetd_ne cl _ h

theorem alookup_setdStep_self (ohlcv : List (SKey × JVal)) (cl : Cell) (k : SKey) :
    alookup (setdStep ohlcv cl k) k =
      if (pyGet ohlcv k).isNull then alookup cl k
      else some ((alookup cl k).getD (pyGet ohlcv k)) := by
  by_cases hn : (pyGet ohlcv k).isNull
  · simp [setdStep, hn]
  · simp [setdStep, hn, alookup_asetd_self]

theorem alookup_setdFold (ohlcv : List (SKey × JVal)) (ks : List SKey) (cell : Cell)
    (k : SKey) (hnd : ks.Nodup) :
    alookup (ks.foldl (setdStep ohlcv) cell) k
    = if k ∈ ks ∧ (pyGet ohlcv k).isNull = false ∧ (alookup cell k).isNone = true
      then some (pyGet ohlcv k) else alookup cell k := by
  induction ks generalizing cell with
  | nil => simp
  | cons k₀ kt ih =>
      rw [List.nodup_cons] at hnd
      obtain ⟨hk₀, hnd'⟩ := hnd
      rw [List.foldl_cons, ih _ hnd']
      by_cases hk : k = k₀
      · subst hk
        rw [if_neg (by simp [hk₀])]
        rw [alookup_setdStep_self]
        by_cases hn : (pyGet ohlcv k).isNull
        · rw [if_pos hn, if_neg (by simp [hn])]
        · rw [if_neg hn]
          cases hcell : alookup cell k with
          | some x => simp [hcell, hn]
          | none => simp [hcell, hn]
      · simp only [alookup_setdStep_ne ohlcv cell hk, List.mem_cons, hk, false_or]

theorem pyGet_normDict (c : Contrib) (k : SKey) :
    pyGet (normDict c) k = ohlcvGet c k := by
  simp only [pyGet, normDict, alookup, ohlcvGet]
  split_ifs <;> rfl

/-- The call `_ingest_bar` depends on its `ohlcv` dict only through the five
normalized values. -/
theorem ingest_bar_eq_ingestC (bars : Bars) (ts : Int) (i : SKey) (v : JVal)
    (ohlcv : List (SKey × JVal)) :
    ingest_bar bars ts i v ohlcv = ingestC bars (toContrib ts i v ohlcv) := by
  simp only [ingestC, ingest_bar, toContrib, normDict, ohlcvKeys, List.foldl, setdStep,
    pyGet, alookup]
  rfl

theorem alookup_getD_nil (S : Bars) (ts : Int) (k : SKey) :
    alookup ((alookup S ts).getD []) k = cellVal S ts k := by
  rw [cellVal]
  cases alookup S ts <;> simp [alookup]

theorem ohlcvKeys_nodup : ohlcvKeys.Nodup := by decide

/-- The slot-wise description of one normalized ingestion. -/
theorem cellVal_ingestC (S : Bars) (c : Contrib) (ts : Int) (k : SKey) :
    cellVal (ingestC S c) ts k = (slotAction ts k c).app (cellVal S ts k) := by
  by_cases hts : c.ts = ts
  · have h1 : cellVal (ingestC S c) ts k =
        alookup (ohlcvKeys.foldl (setdStep (normDict c))
          (ainsert ((alookup S c.ts).getD []) c.id c.value)) k := by
      rw [cellVal, ingestC, ingest_bar]
      rw [← hts, alookup_ainsert_self]
      rfl
    rw [h1, alookup_setdFold _ _ _ _ ohlcvKeys_nodup]
    by_cases hid : c.id = k
    · subst hid
      rw [if_neg (by simp [alookup_ainsert_self])]
      rw [alookup_ainsert_self]
      simp [slotAction, hts, SlotFun.app]
    · have hne : ¬ (k = c.id) := fun hx => hid hx.symm
      have hcell : alookup (ainsert ((alookup S c.ts).getD []) c.id c.value) k
          = cellVal S ts k := by
        rw [alookup_ainsert_ne _ _ hne, alookup_getD_nil, hts]
      simp only [hcell, pyGet_normDict]
      rw [slotAction, if_pos hts, if_neg hid]
      by_cases hmem : k ∈ ohlcvKeys ∧ (ohlcvGet c k).isNull = false
      · rw [if_pos hmem]
        cases hcv : cellVal S ts k with
        | none => simp [hmem.1, hmem.2, hcv, SlotFun.app]
        | some x => simp [hmem.1, hmem.2, hcv, SlotFun.app]
      · rw [if_neg hmem]
        have hc2 : ¬(k ∈ ohlcvKeys ∧ (ohlcvGet c k).isNull = false ∧
            (cellVal S ts k).isNone = true) := fun hx => hmem ⟨hx.1, hx.2.1⟩
        rw [if_neg hc2]
        simp [SlotFun.app]
  · have h1 : cellVal (ingestC S c) ts k = cellVal S ts k := by
      rw [cellVal, cellVal, ingestC, ingest_bar]
      rw [alookup_ainsert_ne _ _ (fun hx => hts hx.symm)]
    rw [h1, slotAction, if_neg hts]
    simp [SlotFun.app]

theorem appFold_cons (ts : Int) (k : SKey) (c : Contrib) (ct : List Contrib) (v : Option JVal) :
    appFold ts k (c :: ct) v = appFold ts k ct ((slotAction ts k c).app v) := rfl

/-- Slot-wise description of a whole merge fold. -/
theorem cellVal_fold (cs : List Contrib) (S : Bars) (ts : Int) (k : SKey) :
    cellVal (cs.foldl ingestC S) ts k = appFold ts k cs (cellVal S ts k) := by
  induction cs generalizing S with
  | nil => rfl
  | cons c ct ih =>
      rw [List.foldl_cons, ih, appFold_cons, cellVal_ingestC]

theorem app_compAfter (f g : SlotFun) (v : Option JVal) :
    (compAfter f g).app v = g.app (f.app v) := by
  cases f <;> cases g <;> cases v <;> rfl

theorem app_slotFoldAux (ts : Int) (k : SKey) (cs : List Contrib) (f : SlotFun)
    (v : Option JVal) :
    (cs.foldl (fun f c => compAfter f (slotAction ts k c)) f).app v
      = appFold ts k cs (f.app v) := by
  induction cs generalizing f v with
  | nil => rfl
  | cons c ct ih =>
      rw [List.foldl_cons, ih, app_compAfter, appFold_cons]

theorem appFold_eq_slotFold (ts : Int) (k : SKey) (cs : List Contrib) (v : Option JVal) :
    appFold ts k cs v = (slotFold ts k cs).app v := by
  rw [slotFold, app_slotFoldAux]
  rfl

theorem app_app_idem (F : SlotFun) (v : Option JVal) : F.app (F.app v) = F.app v := by
  cases F <;> cases v <;> rfl

theorem appFold_idem (ts : Int) (k : SKey) (cs : List Contrib) (v : Option JVal) :
    appFold ts k cs (appFold ts k cs v) = appFold ts k cs v := by
  simp only [appFold_eq_slotFold]
  exact app_app_idem _ _

theorem appFold_append (ts : Int) (k : SKey) (cs₁ cs₂ : List Contrib) (v : Option JVal) :
    appFold ts k (cs₁ ++ cs₂) v = appFold ts k cs₂ (appFold ts k cs₁ v) := by
  rw [appFold, List.foldl_append]
  rfl

theorem slotAction_app_some (ts : Int) (i : SKey) (c : Contrib) (x : JVal)
    (h : ¬(c.ts = ts ∧ c.id = i)) : (slotAction ts i c).app (some x) = some x := by
  rw [slotAction]
  by_cases h1 : c.ts = ts
  · rw [if_pos h1, if_neg (fun hx => h ⟨h1, hx⟩)]
    split
    · rfl
    · rfl
  · rw [if_neg h1]
    rfl

theorem appFold_some (ts : Int) (i : SKey) (cs : List Contrib) (x : JVal)
    (h : ∀ c ∈ cs, ¬(c.ts = ts ∧ c.id = i)) : appFold ts i cs (some x) = some x := by
  induction cs with
  | nil => rfl
  | cons c ct ih =>
      rw [appFold_cons, slotAction_app_some _ _ _ _ (h c (by simp))]
      exact ih (fun c' hc' => h c' (by simp [hc']))

theorem alookup_ingestC_ne (S : Bars) (c : Contrib) (ts : Int) (h : ts ≠ c.ts) :
    alookup (ingestC S c) ts = alookup S ts := by
  rw [ingestC, ingest_bar]
  exact alookup_ainsert_ne S _ h

theorem alookup_ingestC_self_isSome (S : Bars) (c : Contrib) :
    (alookup (ingestC S c) c.ts).isSome = true := by
  rw [ingestC, ingest_bar, alookup_ainsert_self]
  rfl

/-- A bar exists after the fold iff some contribution targets it or it
already existed. -/
theorem barSome_fold (cs : List Contrib) (S : Bars) (ts : Int) :
    (alookup (cs.foldl ingestC S) ts).isSome = true ↔
      (∃ c ∈ cs, c.ts = ts) ∨ (alookup S ts).isSome = true := by
  induction cs generalizing S with
  | nil => simp
  | cons c ct ih =>
      rw [List.foldl_cons, ih]
      by_cases h : ts = c.ts
      · subst h
        simp [alookup_ingestC_self_isSome]
      · rw [alookup_ingestC_ne S c ts h]
        constructor
        · rintro (hin | hs)
          · obtain ⟨c', hc', hts'⟩ := hin
            exact Or.inl ⟨c', List.mem_cons.mpr (Or.inr hc'), hts'⟩
          · exact Or.inr hs
        · rintro (⟨c', hc', hts'⟩ | hs)
          · rcases List.mem_cons.mp hc' with rfl | hmem
            · exact absurd hts'.symm h
            · exact Or.inl ⟨c', hmem, hts'⟩
          · exact Or.inr hs

theorem KSorted_setdFold (ohlcv : List (SKey × JVal)) (ks : List SKey) (cell : Cell)
    (h : KSorted cell) : KSorted (ks.foldl (setdStep ohlcv) cell) := by
  induction ks generalizing cell with
  | nil => exact h
  | cons k₀ kt ih =>
      rw [List.foldl_cons]
      apply ih
      simp only [setdStep]
      split
      · exact h
      · exact KSorted_asetd _ _ h

theorem BarsWF_nil : BarsWF [] := by
  refine ⟨List.Pairwise.nil, ?_⟩
  simp

theorem BarsWF_ingestC (S : Bars) (c : Contrib) (h : BarsWF S) : BarsWF (ingestC S c) := by
  obtain ⟨hs, hcells⟩ := h
  have holdcell : KSorted ((alookup S c.ts).getD []) := by
    cases hl : alookup S c.ts with
    | none => simp [KSorted]
    | some cell => simpa using hcells (c.ts, cell) (mem_of_alookup hl)
  have hnew : KSorted (ohlcvKeys.foldl (setdStep (normDict c))
      (ainsert ((alookup S c.ts).getD []) c.id c.value)) :=
    KSorted_setdFold _ _ _ (KSorted_ainsert _ _ holdcell)
  refine ⟨?_, ?_⟩
  · rw [ingestC, ingest_bar]
    exact KSorted_ainsert _ _ hs
  · intro p hp
    rw [ingestC, ingest_bar] at hp
    rcases mem_ainsert _ _ _ _ hp with hp' | hp'
    · rw [hp']
      exact hnew
    · exact hcells p hp'

theorem BarsWF_fold (cs : List Contrib) (S : Bars) (h : BarsWF S) :
    BarsWF (cs.foldl ingestC S) := by
  induction cs generalizing S with
  | nil => exact h
  | cons c ct ih => exact ih _ (BarsWF_ingestC _ _ h)

/-! ## Factoring the merge loop through contribution extraction -/

theorem ebind_ok {α β : Type} (x : α) (f : α → Except MergeError β) :
    (Except.ok x >>= f) = f x := rfl

theorem ebind_error {α β : Type} (e : MergeError) (f : α → Except MergeError β) :
    ((Except.error e : Except MergeError α) >>= f) = (.error e : Except MergeError β) := rfl

theorem emap_ok {α β : Type} (f : α → β) (x : α) :
    (Except.ok x : Except MergeError α).map f = .ok (f x) := rfl

theorem emap_error {α β : Type} (f : α → β) (e : MergeError) :
    (Except.error e : Except MergeError α).map f = (.error e : Except MergeError β) := rfl

theorem ebindE_ok {α β : Type} (x : α) (f : α → Except MergeError β) :
    (Except.ok x : Except MergeError α).bind f = f x := rfl

theorem ebindE_error {α β : Type} (e : MergeError) (f : α → Except MergeError β) :
    (Except.error e : Except MergeError α).bind f = (.error e : Except MergeError β) := rfl

theorem scalarLoop_eq (i : SKey) (l : List JVal) (bars : Bars) :
    scalarLoop i bars l = (scalarContribs i l).map (fun cs => cs.foldl ingestC bars) := by
  induction l generalizing bars with
  | nil => rfl
  | cons res rest ih =>
      cases res with
      | obj fields =>
          simp only [scalarLoop, scalarContribs]
          by_cases hnull : (pyOr (pyGet fields "timestamp") (pyGet fields "timestampMs")).isNull
          · simp only [hnull, if_true]
            exact ih bars
          · simp only [if_neg hnull]
            cases hts : pyInt (pyOr (pyGet fields "timestamp") (pyGet fields "timestampMs")) with
            | error e => simp [ebind_error, emap_error]
            | ok ts =>
                simp only [ebind_ok]
                cases hv : pyItem fields "value" with
                | error e => simp [ebind_error, emap_error]
                | ok v =>
                    simp only [ebind_ok]
                    rw [ih]
                    cases hcs : scalarContribs i rest with
                    | error e => simp [ebind_error, emap_error]
                    | ok cs =>
                        simp only [ebind_ok, emap_ok]
                        rw [List.foldl_cons, ingest_bar_eq_ingestC]
      | null => rfl
      | bool b => rfl
      | num q => rfl
      | nan => rfl
      | inf => rfl
      | ninf => rfl
      | str s => rfl
      | arr xs => rfl

theorem vecLoop_eq (i : SKey) (val_arr o_arr c_arr h_arr l_arr v_arr : JVal)
    (l : List JVal) (idx : Nat) (bars : Bars) :
    vecLoop i val_arr o_arr c_arr h_arr l_arr v_arr bars idx l
      = (vecContribs i val_arr o_arr c_arr h_arr l_arr v_arr idx l).map
          (fun cs => cs.foldl ingestC bars) := by
  induction l generalizing idx bars with
  | nil => rfl
  | cons t rest ih =>
      simp only [vecLoop, vecContribs]
      cases h1 : condIndex o_arr idx with
      | error e => simp [ebind_error, emap_error]
      | ok o =>
      simp only [ebind_ok]
      cases h2 : condIndex c_arr idx with
      | error e => simp [ebind_error, emap_error]
      | ok c =>
      simp only [ebind_ok]
      cases h3 : condIndex h_arr idx with
      | error e => simp [ebind_error, emap_error]
      | ok h =>
      simp only [ebind_ok]
      cases h4 : condIndex l_arr idx with
      | error e => simp [ebind_error, emap_error]
      | ok lo =>
      simp only [ebind_ok]
      cases h5 : condIndex v_arr idx with
      | error e => simp [ebind_error, emap_error]
      | ok vo =>
      simp only [ebind_ok]
      cases hts : pyInt t with
      | error e => simp [ebind_error, emap_error]
      | ok ts =>
      simp only [ebind_ok]
      cases hval : pyIndex val_arr idx with
      | error e => simp [ebind_error, emap_error]
      | ok value =>
      simp only [ebind_ok]
      rw [ih]
      cases hcs : vecContribs i val_arr o_arr c_arr h_arr l_arr v_arr (idx + 1) rest with
      | error e => simp [ebind_error, emap_error]
      | ok cs =>
      simp only [ebind_ok, emap_ok]
      rw [List.foldl_cons, ingest_bar_eq_ingestC]

theorem processItem_eq (bars : Bars) (item : Item) :
    processItem bars item = (itemContribs item).map (fun cs => cs.foldl ingestC bars) := by
  obtain ⟨iid, res⟩ := item
  cases res with
  | arr resList => exact scalarLoop_eq _ _ _
  | obj fields =>
      simp only [processItem, itemContribs]
      cases htsv : pyOr (pyGet fields "timestamp") (pyGet fields "timestampMs") with
      | arr ts_arr =>
          cases hval : alookup fields "value" with
          | none => rfl
          | some val_arr => exact vecLoop_eq _ _ _ _ _ _ _ _ _ _
      | null => rfl
      | bool b => rfl
      | num q => rfl
      | nan => rfl
      | inf => rfl
      | ninf => rfl
      | str s => rfl
      | obj fs => rfl
  | null => rfl
  | bool b => rfl
  | num q => rfl
  | nan => rfl
  | inf => rfl
  | ninf => rfl
  | str s => rfl

theorem foldlM_processItem_eq (data : List Item) (bars : Bars) :
    data.foldlM processItem bars = (extractAll data).map (fun cs => cs.foldl ingestC bars) := by
  induction data generalizing bars with
  | nil => rfl
  | cons it data ih =>
      rw [List.foldlM_cons]
      simp only [extractAll]
      rw [processItem_eq]
      cases hc : itemContribs it with
      | error e => simp [ebind_error, emap_error]
      | ok cs =>
          simp only [emap_ok, ebind_ok]
          rw [ih]
          cases hrest : extractAll data with
          | error e => simp [ebind_error, emap_error]
          | ok rest =>
              simp only [ebind_ok, emap_ok]
              rw [List.foldl_append]

theorem mergeBars_eq (data : List Item) :
    mergeBars data = (extractAll data).map mergeContribs := by
  rw [mergeBars, foldlM_processItem_eq]
  rfl

theorem extractAll_append (d₁ d₂ : List Item) :
    extractAll (d₁ ++ d₂)
      = (extractAll d₁).bind (fun cs₁ => (extractAll d₂).map (fun cs₂ => cs₁ ++ cs₂)) := by
  induction d₁ with
  | nil =>
      simp only [List.nil_append, extractAll, ebind_ok]
      cases extractAll d₂ with
      | error e => rfl
      | ok cs => simp [emap_ok, ebind_ok, ebindE_ok]
  | cons it d ih =>
      simp only [List.cons_append, extractAll, List.append_eq, ih]
      cases itemContribs it with
      | error e => rfl
      | ok cs =>
          simp only [ebind_ok]
          cases extractAll d with
          | error e => rfl
          | ok cs₁ =>
              simp only [ebind_ok]
              cases extractAll d₂ with
              | error e => rfl
              | ok cs₂ => simp [emap_ok, ebind_ok, ebindE_ok, List.append_assoc]

/-- Well-formed bars dicts with the same bar set and the same slot values
are equal. -/
theorem bars_lookup_ext {b₁ b₂ : Bars} (w₁ : BarsWF b₁) (w₂ : BarsWF b₂)
    (hsome : ∀ ts, (alookup b₁ ts).isSome = (alookup b₂ ts).isSome)
    (hval : ∀ ts k, cellVal b₁ ts k = cellVal b₂ ts k) : b₁ = b₂ := by
  apply alist_ext w₁.1 w₂.1
  intro ts
  cases h1 : alookup b₁ ts with
  | none =>
      have hs := hsome ts
      rw [h1] at hs
      cases h2 : alookup b₂ ts with
      | none => rfl
      | some cell₂ => rw [h2] at hs; simp at hs
  | some cell₁ =>
      have hs := hsome ts
      rw [h1] at hs
      cases h2 : alookup b₂ ts with
      | none => rw [h2] at hs; simp at hs
      | some cell₂ =>
          have s₁ : KSorted cell₁ := w₁.2 (ts, cell₁) (mem_of_alookup h1)
          have s₂ : KSorted cell₂ := w₂.2 (ts, cell₂) (mem_of_alookup h2)
          refine congrArg some (alist_ext s₁ s₂ ?_)
          intro k
          have hv := hval ts k
          rw [cellVal, cellVal, h1, h2] at hv
          simpa using hv

/-- Merging a contribution list a second time does not change the result. -/
theorem mergeContribs_dup (cs : List Contrib) :
    mergeContribs (cs ++ cs) = mergeContribs cs := by
  have wf1 : BarsWF (mergeContribs (cs ++ cs)) := BarsWF_fold _ _ BarsWF_nil
  have wf2 : BarsWF (mergeContribs cs) := BarsWF_fold _ _ BarsWF_nil
  refine bars_lookup_ext wf1 wf2 ?_ ?_
  · intro ts
    have h1 := barSome_fold (cs ++ cs) [] ts
    have h2 := barSome_fold cs [] ts
    rw [show mergeContribs (cs ++ cs) = (cs ++ cs).foldl ingestC [] from rfl,
        show mergeContribs cs = cs.foldl ingestC [] from rfl]
    cases hb1 : (alookup ((cs ++ cs).foldl ingestC []) ts).isSome with
    | true =>
        rcases h1.mp hb1 with hex | hf
        · obtain ⟨c, hc, hcts⟩ := hex
          rcases List.mem_append.mp hc with hc' | hc'
          · exact (h2.mpr (Or.inl ⟨c, hc', hcts⟩)).symm
          · exact (h2.mpr (Or.inl ⟨c, hc', hcts⟩)).symm
        · simp [alookup] at hf
    | false =>
        cases hb2 : (alookup (cs.foldl ingestC []) ts).isSome with
        | false => rfl
        | true =>
            rcases h2.mp hb2 with hex | hf
            · obtain ⟨c, hc, hcts⟩ := hex
              have hb : (alookup ((cs ++ cs).foldl ingestC []) ts).isSome = true :=
                h1.mpr (Or.inl ⟨c, List.mem_append.mpr (Or.inl hc), hcts⟩)
              rw [hb1] at hb
              exact absurd hb (by simp)
            · simp [alookup] at hf
  · intro ts k
    rw [show mergeContribs (cs ++ cs) = (cs ++ cs).foldl ingestC [] from rfl,
        show mergeContribs cs = cs.foldl ingestC [] from rfl,
        cellVal_fold, cellVal_fold]
    have hnil : cellVal ([] : Bars) ts k = none := rfl
    rw [hnil, appFold_append, appFold_idem]

/-- The merge loop is idempotent: processing the whole batch a second time
yields the same `bars` dict (and the same error, if any). -/
theorem mergeBars_dup (data : List Item) :
    mergeBars (data ++ data) = mergeBars data := by
  rw [mergeBars_eq, mergeBars_eq, extractAll_append]
  cases extractAll data with
  | error e => rfl
  | ok cs =>
      simp only [ebind_ok, ebindE_ok, emap_ok]
      rw [mergeContribs_dup]

/-! ## Inversion and utility lemmas for the claims -/

theorem extractAll_singleton (it : Item) : extractAll [it] = itemContribs it := by
  simp only [extractAll]
  cases itemContribs it with
  | error e => rfl
  | ok cs => simp [ebind_ok, ebindE_ok]

theorem mergeBars_ok_inv (data : List Item) (bars : Bars) (h : mergeBars data = .ok bars) :
    ∃ cs, extractAll data = .ok cs ∧ bars = mergeContribs cs := by
  rw [mergeBars_eq] at h
  cases he : extractAll data with
  | error e => rw [he] at h; simp [emap_error] at h
  | ok cs =>
      rw [he, emap_ok] at h
      exact ⟨cs, rfl, (Except.ok.inj h).symm⟩

theorem mergeBars_WF (data : List Item) (bars : Bars) (h : mergeBars data = .ok bars) :
    BarsWF bars := by
  obtain ⟨cs, -, rfl⟩ := mergeBars_ok_inv data bars h
  exact BarsWF_fold _ _ BarsWF_nil

theorem cellVal_mergeContribs (cs : List Contrib) (ts : Int) (k : SKey) :
    cellVal (mergeContribs cs) ts k = appFold ts k cs none := by
  rw [show mergeContribs cs = cs.foldl ingestC [] from rfl, cellVal_fold]
  rfl

/-- The function `reshape` propagates a merge error unchanged. -/
theorem reshape_of_mergeBars_error (data : List Item) (now : Int) (e : MergeError)
    (hm : mergeBars data = .error e) : reshape data now = .error e := by
  unfold reshape
  rw [hm]

/-- The tail of `reshape` after a successful merge. -/
theorem reshape_of_mergeBars_ok (data : List Item) (now : Int) (bars : Bars)
    (hm : mergeBars data = .ok bars) :
    reshape data now =
      (if bars.isEmpty then .error .noUsableData
       else
        match ((takeLast LIMIT bars).map (fun p => barToRecord p.1 p.2)).getLast? with
        | none => .error .indexError
        | some last =>
            match alookup last "ts" with
            | none => .error (.keyError "ts")
            | some tsv =>
                match isoE tsv with
                | .error e => .error e
                | .ok dtstr =>
                    .ok {
                      timestamp := tsv
                      datetime_utc := dtstr
                      symbol := stripSlash PAIR
                      granularity := TF
                      price := pyGet last "close"
                      high := pyGet last "high"
                      low := pyGet last "low"
                      vol := pyGet last "volume"
                      ema20 := pyGet last "ema20"
                      ema50 := pyGet last "ema50"
                      ema200 := pyGet last "ema200"
                      rsi14 := pyGet last "rsi14"
                      vwap := pyGet last "vwap"
                      atr14 := pyGet last "atr14"
                      last_candles := (takeLast LIMIT bars).map (fun p => barToRecord p.1 p.2)
                      funding_rate := .null
                      open_interest := .null
                      order_book := .null
                      generated_at := isoMs now
                    }) := by
  unfold reshape
  rw [hm]

/-- Successful `reshape` runs come from a successful, non-empty merge, and
`last_candles` is the ordered, capped record list. -/
theorem reshape_ok_inv (data : List Item) (now : Int) (snap : Snapshot)
    (h : reshape data now = .ok snap) :
    ∃ bars, mergeBars data = .ok bars ∧ bars ≠ [] ∧
      snap.last_candles = (takeLast LIMIT bars).map (fun p => barToRecord p.1 p.2) := by
  cases hm : mergeBars data with
  | error e =>
      rw [reshape_of_mergeBars_error data now e hm] at h
      simp at h
  | ok bars =>
      rw [reshape_of_mergeBars_ok data now bars hm] at h
      by_cases hb : bars.isEmpty
      · rw [if_pos hb] at h
        simp at h
      · rw [if_neg hb] at h
        refine ⟨bars, rfl, by simpa using hb, ?_⟩
        split at h
        · exact Except.noConfusion h
        · split at h
          · exact Except.noConfusion h
          · split at h
            · exact Except.noConfusion h
            · rw [← Except.ok.inj h]

/-- With no assignment to an OHLCV slot, the slot fold is the first
non-None OHLCV write. -/
theorem appFold_firstWrite (ts : Int) (k : SKey) (hk : k ∈ ohlcvKeys) :
    ∀ cs : List Contrib, (∀ c ∈ cs, c.id ∉ ohlcvKeys) →
      appFold ts k cs none = firstWrite cs ts k := by
  intro cs
  induction cs with
  | nil => intro _; rfl
  | cons c ct ih =>
      intro hid
      have hcid : ¬ c.id = k := fun hx => (hid c (by simp)) (hx ▸ hk)
      by_cases hc : c.ts = ts ∧ (ohlcvGet c k).isNull = false
      · have haction : slotAction ts k c = .fillF (ohlcvGet c k) := by
          rw [slotAction, if_pos hc.1, if_neg hcid, if_pos ⟨hk, hc.2⟩]
        have hno : ∀ c' ∈ ct, ¬(c'.ts = ts ∧ c'.id = k) := by
          intro c' hc' hcontra
          exact (hid c' (by simp [hc'])) (hcontra.2 ▸ hk)
        rw [appFold_cons, haction,
          show SlotFun.app (.fillF (ohlcvGet c k)) none = some (ohlcvGet c k) from rfl,
          appFold_some _ _ _ _ hno]
        simp [firstWrite, List.findSome?_cons, hc.1, hc.2]
      · have happ : (slotAction ts k c).app none = none := by
          rw [slotAction]
          by_cases h1 : c.ts = ts
          · rw [if_pos h1, if_neg hcid,
              if_neg (fun hx : _ ∧ _ => hc ⟨h1, hx.2⟩)]
            rfl
          · rw [if_neg h1]
            rfl
        rw [appFold_cons, happ, ih (fun c' hc' => hid c' (by simp [hc']))]
        simp only [firstWrite, List.findSome?_cons, if_neg hc]

/-- With at least one assignment to a slot, the slot fold is the value of
the last assignment. -/
theorem appFold_lastWrite (ts : Int) (i : SKey) (cs : List Contrib) :
    ∀ c : Contrib, (assigns cs ts i).getLast? = some c →
      appFold ts i cs none = some c.value := by
  induction cs using List.reverseRecOn with
  | nil =>
      intro c h
      simp [assigns] at h
  | append_singleton cs b ih =>
      intro c h
      rw [appFold_append]
      by_cases hb : b.ts = ts ∧ b.id = i
      · have hlast : (assigns (cs ++ [b]) ts i).getLast? = some b := by
          simp [assigns, List.filter_append, hb.1, hb.2]
        rw [hlast] at h
        obtain rfl : b = c := Option.some.inj h
        have haction : slotAction ts i b = .constF b.value := by
          rw [slotAction, if_pos hb.1, if_pos hb.2]
        simp [appFold, haction, SlotFun.app]
      · have hassign : assigns (cs ++ [b]) ts i = assigns cs ts i := by
          simp only [assigns, List.filter_append]
          simp [hb]
        rw [hassign] at h
        rw [ih c h]
        simp [appFold, slotAction_app_some _ _ _ _ hb]

/-! ## Claims -/

/-- C1 (counterexample): merging the same set of IndicatorSamples is NOT
order-independent.  Two records for timestamp 1 carry conflicting `close`
values; whichever item is processed first wins (`setdefault`), so the two
processing orders produce different BarSeries. -/
theorem c1_counterexample :
    mergeBars [⟨"ema20", .arr [.obj [("timestamp", .num 1), ("value", .num 1),
                                      ("close", .num 10)]]⟩,
               ⟨"rsi14", .arr [.obj [("timestamp", .num 1), ("value", .num 2),
                                      ("close", .num 20)]]⟩]
      = .ok [(1, [("close", .num 10), ("ema20", .num 1), ("rsi14", .num 2)])]
    ∧ mergeBars [⟨"rsi14", .arr [.obj [("timestamp", .num 1), ("value", .num 2),
                                        ("close", .num 20)]]⟩,
                 ⟨"ema20", .arr [.obj [("timestamp", .num 1), ("value", .num 1),
                                        ("close", .num 10)]]⟩]
      = .ok [(1, [("close", .num 20), ("ema20", .num 1), ("rsi14", .num 2)])]
    ∧ ([(1, [("close", JVal.num 10), ("ema20", JVal.num 1), ("rsi14", JVal.num 2)])] : Bars)
      ≠ [(1, [("close", JVal.num 20), ("ema20", JVal.num 1), ("rsi14", JVal.num 2)])] := by
  refine ⟨by rfl, by rfl, ?_⟩
  intro hcontra
  injection hcontra with h1 h2
  injection h1 with ha hb
  injection hb with hc hd
  injection hc with he hf
  injection hf with hg
  norm_num at hg

/-- C1 (amended): merging the same batch twice in sequence is idempotent —
the duplicated batch produces exactly the same merge result (and the same
`reshape` output) as the batch itself.  (Order-independence, the other half
of the original claim, is refuted by `c1_counterexample`.) -/
theorem c1_amended_idempotent (data : List Item) (now : Int) :
    mergeBars (data ++ data) = mergeBars data
    ∧ reshape (data ++ data) now = reshape data now := by
  refine ⟨mergeBars_dup data, ?_⟩
  cases hm : mergeBars data with
  | error e =>
      rw [reshape_of_mergeBars_error _ _ _ hm,
          reshape_of_mergeBars_error _ _ _ (by rw [mergeBars_dup]; exact hm)]
  | ok bars =>
      rw [reshape_of_mergeBars_ok _ _ _ hm,
          reshape_of_mergeBars_ok _ _ _ (by rw [mergeBars_dup]; exact hm)]

/-- C3: when the merge produces zero bars (in particular for an empty
batch), `reshape` fails with the `NoUsableData` condition; a successful
`reshape` never carries an empty `last_candles` series. -/
theorem c3_empty_failure (data : List Item) (now : Int) :
    (mergeBars data = .ok [] → reshape data now = .error .noUsableData)
    ∧ (∀ snap, reshape data now = .ok snap → snap.last_candles ≠ []) := by
  constructor
  · intro h
    rw [reshape_of_mergeBars_ok _ _ _ h]
    rfl
  · intro snap hs
    obtain ⟨bars, hm, hne, hlc⟩ := reshape_ok_inv data now snap hs
    rw [hlc]
    intro hcontra
    rw [List.map_eq_nil_iff] at hcontra
    have h1 : bars.length ≤ bars.length - LIMIT :=
      List.drop_eq_nil_iff.mp (by simpa [takeLast] using hcontra)
    have h2 : 0 < bars.length := List.length_pos.mpr hne
    have h3 : LIMIT = 3000 := rfl
    omega

/-- C3 (witness): the empty batch fails with `NoUsableData`. -/
theorem c3_witness : reshape [] 0 = .error .noUsableData :=
  (c3_empty_failure [] 0).1 rfl

/-- C6 (counterexample): a malformed record CAN abort the merge.  A
scalar-shaped record carrying a timestamp but no `value` field raises
`KeyError` (`res["value"]`), which is not the `NoUsableData` condition. -/
theorem c6_counterexample :
    reshape [⟨"x", .arr [.obj [("timestamp", .num 1)]]⟩] 0 = .error (.keyError "value")
    ∧ (MergeError.keyError "value") ≠ .noUsableData := by
  exact ⟨rfl, by decide⟩

/-- C6 (amended): the recoverable skips are exactly these — a result
object of unrecognized shape (neither a list nor a dict whose
`timestamp`/`timestampMs` is an array) is ignored and the run continues,
and a scalar record whose `timestamp`/`timestampMs` lookup yields `None`
is dropped; but a recognized-shape record missing its `value` field (or
with a bad array index / bad timestamp) raises and aborts the merge, as
shown by `c6_counterexample`. -/
theorem c6_amended (i : SKey) (bars : Bars) (r : JVal)
    (fields : List (SKey × JVal)) (rest : List JVal) :
    (unrecognized r = true → processItem bars ⟨i, r⟩ = .ok bars)
    ∧ ((pyOr (pyGet fields "timestamp") (pyGet fields "timestampMs")) = .null →
        scalarLoop i bars (.obj fields :: rest) = scalarLoop i bars rest) := by
  constructor
  · intro h
    cases r with
    | arr xs => simp [unrecognized] at h
    | obj fs =>
        simp only [processItem]
        cases htsv : pyOr (pyGet fs "timestamp") (pyGet fs "timestampMs") with
        | arr ts_arr => simp [unrecognized, htsv, JVal.isArr] at h
        | null => rfl
        | bool b => rfl
        | num q => rfl
        | nan => rfl
        | inf => rfl
        | ninf => rfl
        | str s => rfl
        | obj fs' => rfl
    | null => rfl
    | bool b => rfl
    | num q => rfl
    | nan => rfl
    | inf => rfl
    | ninf => rfl
    | str s => rfl
  · intro h
    simp only [scalarLoop, h]
    simp [JVal.isNull]

/-- C6 (witness): a numeric result object is skipped, and a record with
neither timestamp key is skipped. -/
theorem c6_witness :
    processItem [] ⟨"x", .num 5⟩ = .ok []
    ∧ scalarLoop "x" [] [.obj [("value", .num 3)]] = scalarLoop "x" [] [] := by
  exact ⟨(c6_amended "x" [] (.num 5) [] []).1 rfl,
         (c6_amended "x" [] (.num 5) [("value", .num 3)] []).2 rfl⟩

/-- C7: the merged `bars` dict has strictly increasing (hence pairwise
distinct) timestamps — at most one Bar per timestamp — and the final
capped, ordered sequence keeps strictly increasing timestamps. -/
theorem c7_invariants (data : List Item) (bars : Bars) (h : mergeBars data = .ok bars) :
    (bars.map Prod.fst).Pairwise (· < ·)
    ∧ (bars.map Prod.fst).Nodup
    ∧ ((takeLast LIMIT bars).map Prod.fst).Pairwise (· < ·) := by
  have wf := mergeBars_WF data bars h
  have hp : (bars.map Prod.fst).Pairwise (· < ·) := by
    have h1 := wf.1
    rw [KSorted] at h1
    exact List.Pairwise.map _ (fun a b hab => hab) h1
  refine ⟨hp, hp.imp (fun hab => ne_of_lt hab), ?_⟩
  rw [takeLast, List.map_drop]
  exact List.Pairwise.sublist (List.drop_sublist _ _) hp

/-- C7 (witness): the invariants on a concrete two-bar merge (input in
descending timestamp order). -/
theorem c7_witness :
    (([(1, [("ema20", JVal.num 6)]), (2, [("ema20", JVal.num 7)])] : Bars).map
      Prod.fst).Pairwise (· < ·) :=
  (c7_invariants
    [⟨"ema20", .arr [.obj [("timestamp", .num 2), ("value", .num 7)],
                     .obj [("timestamp", .num 1), ("value", .num 6)]]⟩]
    [(1, [("ema20", JVal.num 6)]), (2, [("ema20", JVal.num 7)])] rfl).1

/-- C9 (counterexample): a scalar record with `timestamp = 0` and
`timestampMs = 0` is NOT skipped — `0 or 0` is `0`, which is not `None`,
so the record is ingested and produces a Bar keyed 0.  The claim's
"skipping the record entirely if [timestampMs] is also absent or zero"
is wrong for the zero case. -/
theorem c9_counterexample :
    mergeBars [⟨"x", .arr [.obj [("timestamp", .num 0), ("timestampMs", .num 0),
                                  ("value", .num 7)]]⟩]
      = .ok [(0, [("x", JVal.num 7)])]
    ∧ ([(0, [("x", JVal.num 7)])] : Bars) ≠ [] := by
  exact ⟨rfl, by simp⟩

/-- C9 (amended): a scalar record whose `timestamp` field is 0 falls back
to `timestampMs`; it is skipped only when that fallback is `None`/absent;
a numeric `timestampMs` — zero included — is ingested (so a Bar keyed 0
can arise from `timestampMs`, never from the `timestamp` field itself). -/
theorem c9_amended (i : SKey) (bars : Bars) (fields : List (SKey × JVal))
    (rest : List JVal) (hts : pyGet fields "timestamp" = .num 0) :
    (pyGet fields "timestampMs" = .null →
        scalarLoop i bars (.obj fields :: rest) = scalarLoop i bars rest)
    ∧ (∀ m : ℚ, pyGet fields "timestampMs" = .num m →
        ∀ v, alookup fields "value" = some v →
          scalarLoop i bars (.obj fields :: rest)
            = scalarLoop i (ingest_bar bars (pyTrunc m) i v fields) rest) := by
  constructor
  · intro hms
    simp only [scalarLoop, hts, hms]
    simp [pyOr, JVal.truthy, JVal.isNull]
  · intro m hms v hv
    simp only [scalarLoop, hts, hms]
    simp [pyOr, JVal.truthy, JVal.isNull, pyInt, pyItem, hv, ebind_ok]

/-- C9 (witness): with `timestamp = 0`, `timestampMs = 0`, the record is
ingested at timestamp 0 (not skipped). -/
theorem c9_witness :
    scalarLoop "x" [] [.obj [("timestamp", .num 0), ("timestampMs", .num 0),
                              ("value", .num 7)]]
      = scalarLoop "x"
          (ingest_bar [] (pyTrunc 0) "x" (.num 7)
            [("timestamp", .num 0), ("timestampMs", .num 0), ("value", .num 7)]) [] :=
  (c9_amended "x" [] [("timestamp", .num 0), ("timestampMs", .num 0), ("value", .num 7)]
    [] rfl).2 0 rfl (.num 7) rfl

/-- C10: for a (timestamp, indicator id) pair, the value stored on the Bar
is the value of the last contribution merged for that pair — the plain
assignment `cell[indicator_id] = value` always overwrites, and later
`setdefault`s cannot touch an occupied slot. -/
theorem c10_last_writer (data : List Item) (cs : List Contrib) (bars : Bars)
    (ts : Int) (i : SKey) (c : Contrib)
    (he : extractAll data = .ok cs) (hm : mergeBars data = .ok bars)
    (hlast : (assigns cs ts i).getLast? = some c) :
    cellVal bars ts i = some c.value := by
  obtain ⟨cs', hcs', rfl⟩ := mergeBars_ok_inv data bars hm
  rw [hcs'] at he
  obtain rfl : cs' = cs := Except.ok.inj he
  rw [cellVal_mergeContribs]
  exact appFold_lastWrite ts i _ c hlast

/-- C10 (witness): two contributions for (1, "ema20") — the later value 11
wins. -/
theorem c10_witness :
    cellVal [(1, [("ema20", JVal.num 11)])] 1 "ema20" = some (JVal.num 11) :=
  c10_last_writer
    [⟨"ema20", .arr [.obj [("timestamp", .num 1), ("value", .num 10)]]⟩,
     ⟨"ema20", .arr [.obj [("timestamp", .num 1), ("value", .num 11)]]⟩]
    [⟨1, "ema20", .num 10, .null, .null, .null, .null, .null⟩,
     ⟨1, "ema20", .num 11, .null, .null, .null, .null, .null⟩]
    [(1, [("ema20", JVal.num 11)])] 1 "ema20"
    ⟨1, "ema20", .num 11, .null, .null, .null, .null, .null⟩
    rfl rfl rfl

/-- C2 (counterexample): an OHLCV field does not always keep the value of
the first contribution that supplied it.  The second item's indicator id
is itself `"open"`, so its plain assignment `cell["open"] = 99`
overwrites the `open` value 1 that the first contribution had set, even
though both contributions carry OHLCV `open` values (1 first, then 2). -/
theorem c2_counterexample :
    mergeBars [⟨"ema20", .arr [.obj [("timestamp", .num 1), ("value", .num 10),
                                      ("open", .num 1)]]⟩,
               ⟨"open", .arr [.obj [("timestamp", .num 1), ("value", .num 99),
                                     ("open", .num 2)]]⟩]
      = .ok [(1, [("ema20", .num 10), ("open", .num 99)])]
    ∧ extractAll [⟨"ema20", .arr [.obj [("timestamp", .num 1), ("value", .num 10),
                                         ("open", .num 1)]]⟩,
                  ⟨"open", .arr [.obj [("timestamp", .num 1), ("value", .num 99),
                                        ("open", .num 2)]]⟩]
      = .ok [⟨1, "ema20", .num 10, .num 1, .null, .null, .null, .null⟩,
             ⟨1, "open", .num 99, .num 2, .null, .null, .null, .null⟩]
    ∧ firstWrite [⟨1, "ema20", .num 10, .num 1, .null, .null, .null, .null⟩,
                  ⟨1, "open", .num 99, .num 2, .null, .null, .null, .null⟩] 1 "open"
      = some (.num 1)
    ∧ cellVal [(1, [("ema20", JVal.num 10), ("open", JVal.num 99)])] 1 "open"
      = some (.num 99)
    ∧ JVal.num 99 ≠ JVal.num 1 := by
  refine ⟨by rfl, by rfl, by rfl, by rfl, ?_⟩
  intro hcontra
  injection hcontra with h'
  norm_num at h'

/-- C2 (amended): first-writer-wins for OHLCV holds whenever no indicator
id collides with an OHLCV key: the stored OHLCV value is the first
non-None value supplied for that (timestamp, field) in merge order (and
`none` when no contribution supplied it). -/
theorem c2_amended (data : List Item) (cs : List Contrib) (bars : Bars)
    (ts : Int) (k : SKey)
    (he : extractAll data = .ok cs) (hm : mergeBars data = .ok bars)
    (hk : k ∈ ohlcvKeys) (hid : ∀ c ∈ cs, c.id ∉ ohlcvKeys) :
    cellVal bars ts k = firstWrite cs ts k := by
  obtain ⟨cs', hcs', rfl⟩ := mergeBars_ok_inv data bars hm
  rw [hcs'] at he
  obtain rfl : cs' = cs := Except.ok.inj he
  rw [cellVal_mergeContribs]
  exact appFold_firstWrite ts k hk _ hid

/-- C2 (witness): two items with conflicting `open` values and
non-colliding ids — the bar keeps the first (`3`). -/
theorem c2_witness :
    cellVal [(1, [("ema20", JVal.num 10), ("open", JVal.num 3), ("rsi14", JVal.num 20)])]
        1 "open"
      = firstWrite [⟨1, "ema20", .num 10, .num 3, .null, .null, .null, .null⟩,
                    ⟨1, "rsi14", .num 20, .num 4, .null, .null, .null, .null⟩] 1 "open" :=
  c2_amended
    [⟨"ema20", .arr [.obj [("timestamp", .num 1), ("value", .num 10), ("open", .num 3)]]⟩,
     ⟨"rsi14", .arr [.obj [("timestamp", .num 1), ("value", .num 20), ("open", .num 4)]]⟩]
    [⟨1, "ema20", .num 10, .num 3, .null, .null, .null, .null⟩,
     ⟨1, "rsi14", .num 20, .num 4, .null, .null, .null, .null⟩]
    [(1, [("ema20", JVal.num 10), ("open", JVal.num 3), ("rsi14", JVal.num 20)])]
    1 "open" rfl rfl (by decide) (by decide)

/-- C4: a successful run's `last_candles` is exactly the record list of
the last `LIMIT` merged bars; its length is at most `LIMIT`; the kept
bars' timestamps are strictly ascending; and the dropped bars form the
prefix whose timestamps are all smaller than every kept timestamp (the
oldest are dropped). -/
theorem c4_output (data : List Item) (now : Int) (snap : Snapshot) (bars : Bars)
    (h : reshape data now = .ok snap) (hm : mergeBars data = .ok bars) :
    snap.last_candles = (takeLast LIMIT bars).map (fun p => barToRecord p.1 p.2)
    ∧ snap.last_candles.length ≤ LIMIT
    ∧ ((takeLast LIMIT bars).map Prod.fst).Pairwise (· < ·)
    ∧ bars.take (bars.length - LIMIT) ++ takeLast LIMIT bars = bars
    ∧ (∀ t ∈ (bars.take (bars.length - LIMIT)).map Prod.fst,
        ∀ u ∈ (takeLast LIMIT bars).map Prod.fst, t < u) := by
  obtain ⟨bars', hm', hne, hlc⟩ := reshape_ok_inv data now snap h
  have heq := hm
  rw [hm'] at heq
  have heqb : bars' = bars := Except.ok.inj heq
  rw [heqb] at hlc
  have hp : (bars.map Prod.fst).Pairwise (· < ·) := by
    have h1 := (mergeBars_WF data bars hm).1
    rw [KSorted] at h1
    exact List.Pairwise.map _ (fun a b hab => hab) h1
  refine ⟨hlc, ?_, ?_, ?_, ?_⟩
  · rw [hlc, List.length_map, takeLast, List.length_drop]
    have h3 : LIMIT = 3000 := rfl
    omega
  · rw [takeLast, List.map_drop]
    exact List.Pairwise.sublist (List.drop_sublist _ _) hp
  · rw [takeLast]
    exact List.take_append_drop _ _
  · have hsplit : (bars.take (bars.length - LIMIT)).map Prod.fst
        ++ (takeLast LIMIT bars).map Prod.fst = bars.map Prod.fst := by
      rw [takeLast, ← List.map_append, List.take_append_drop]
    have hp2 : ((bars.take (bars.length - LIMIT)).map Prod.fst
        ++ (takeLast LIMIT bars).map Prod.fst).Pairwise (· < ·) := by
      rw [hsplit]
      exact hp
    exact (List.pairwise_append.mp hp2).2.2

/-- C4 (witness): the kept bars of a concrete two-bar run are strictly
ascending (input arrived in descending order). -/
theorem c4_witness :
    ((takeLast LIMIT ([(10, [("ema20", JVal.num 6)]), (20, [("ema20", JVal.num 7)])] : Bars)).map
      Prod.fst).Pairwise (· < ·) :=
  (c4_output
    [⟨"ema20", .arr [.obj [("timestamp", .num 20), ("value", .num 7)],
                     .obj [("timestamp", .num 10), ("value", .num 6)]]⟩]
    0 _ _ rfl rfl).2.2.1

/-- C5 (counterexample): a vector-shaped record and its
positionally-equivalent scalar records do NOT always merge to the same
bars.  With timestamp 0, the vector loop ingests the point (`int(0)`),
while the scalar path drops it (`0 or …` falls through to the absent
`timestampMs`), producing no bar at all. -/
theorem c5_counterexample :
    mergeBars [vecItem "ema20" [.num 0] [.num 5] .null .null .null .null .null]
      = .ok [(0, [("ema20", JVal.num 5)])]
    ∧ mergeBars [scalarItem "ema20" [.num 0] [.num 5] .null .null .null .null .null]
      = .ok []
    ∧ (Except.ok [(0, [("ema20", JVal.num 5)])] : Except MergeError Bars) ≠ .ok [] := by
  refine ⟨by rfl, by rfl, ?_⟩
  intro hcontra
  simp at hcontra

theorem condIndex_ok (x : JVal) (n : Nat) (idx : Nat)
    (hx : x = .null ∨ ∃ xs, x = .arr xs ∧ xs.length = n) (hidx : idx < n) :
    condIndex x idx = .ok (entryAt x idx) := by
  rcases hx with rfl | ⟨xs, rfl, hlen⟩
  · rfl
  · have hne : xs.isEmpty = false := by
      cases xs
      · simp at hlen
        omega
      · rfl
    cases hget : xs.get? idx with
    | none =>
        rw [List.get?_eq_none] at hget
        omega
    | some y =>
        rw [List.get?_eq_getElem?] at hget
        simp [condIndex, entryAt, JVal.truthy, hne, pyIndex, hget, List.get?_eq_getElem?]

/-- Pointwise equivalence of the two extraction loops over the zipped
suffix starting at `idx`, for truthy numeric timestamps and well-formed
optional OHLCV arrays. -/
theorem c5_zip (i : SKey) (vss : List JVal) (o c h l w : JVal)
    (hv : ∀ x ∈ [o, c, h, l, w], x = .null ∨ ∃ xs, x = .arr xs ∧ xs.length = vss.length) :
    ∀ (tss : List JVal) (idx : Nat), idx + tss.length = vss.length →
      (∀ t ∈ tss, ∃ q : ℚ, t = .num q ∧ q ≠ 0) →
      vecContribs i (.arr vss) o c h l w idx tss
        = scalarContribs i (scalarRecsFrom vss o c h l w idx tss) := by
  intro tss
  induction tss with
  | nil =>
      intro idx _ _
      rfl
  | cons t rest ih =>
      intro idx hlen hts
      obtain ⟨q, rfl, hq⟩ := hts t (by simp)
      have hidx : idx < vss.length := by
        rw [List.length_cons] at hlen
        omega
      have hval : pyIndex (.arr vss) idx = .ok ((vss.get? idx).getD .null) := by
        cases hg : vss.get? idx with
        | none =>
            rw [List.get?_eq_none] at hg
            omega
        | some y =>
            rw [List.get?_eq_getElem?] at hg
            simp [pyIndex, hg, List.get?_eq_getElem?]
      have htruthy : (JVal.num q).truthy = true := by simp [JVal.truthy, hq]
      simp only [vecContribs, scalarRecsFrom, scalarContribs]
      rw [condIndex_ok o vss.length idx (hv o (by simp)) hidx,
          condIndex_ok c vss.length idx (hv c (by simp)) hidx,
          condIndex_ok h vss.length idx (hv h (by simp)) hidx,
          condIndex_ok l vss.length idx (hv l (by simp)) hidx,
          condIndex_ok w vss.length idx (hv w (by simp)) hidx]
      simp only [ebind_ok, pyInt, hval]
      rw [ih (idx + 1) (by rw [List.length_cons] at hlen; omega)
        (fun t' ht' => hts t' (by simp [ht']))]
      cases hrest : scalarContribs i (scalarRecsFrom vss o c h l w (idx + 1) rest) with
      | error e =>
          simp +decide [pyGet, alookup, pyOr, JVal.truthy, JVal.isNull, pyInt, pyItem,
            toContrib, entryAt, ebind_ok, ebind_error, hq, List.get?_eq_getElem?]
      | ok cs =>
          simp +decide [pyGet, alookup, pyOr, JVal.truthy, JVal.isNull, pyInt, pyItem,
            toContrib, entryAt, ebind_ok, ebind_error, hq, List.get?_eq_getElem?]

/-- C5 (amended): shape equivalence holds on the truthy domain — when
every timestamp entry is a non-zero number and the optional OHLCV arrays
(absent, or exactly as long as the timestamp array) line up, a
vector-shaped item and its positionally-equivalent scalar records merge
to the same bars.  (For a zero/falsy timestamp the two shapes diverge,
see `c5_counterexample`.) -/
theorem c5_amended (i : SKey) (tss vss : List JVal) (o c h l w : JVal)
    (hlen : tss.length = vss.length)
    (hts : ∀ t ∈ tss, ∃ q : ℚ, t = .num q ∧ q ≠ 0)
    (hv : ∀ x ∈ [o, c, h, l, w], x = .null ∨ ∃ xs, x = .arr xs ∧ xs.length = vss.length) :
    mergeBars [vecItem i tss vss o c h l w]
      = mergeBars [scalarItem i tss vss o c h l w] := by
  rw [mergeBars_eq, mergeBars_eq, extractAll_singleton, extractAll_singleton]
  cases tss with
  | nil => rfl
  | cons t rest =>
      have hvec : itemContribs (vecItem i (t :: rest) vss o c h l w)
          = vecContribs i (.arr vss) o c h l w 0 (t :: rest) := rfl
      have hscal : itemContribs (scalarItem i (t :: rest) vss o c h l w)
          = scalarContribs i (scalarRecsFrom vss o c h l w 0 (t :: rest)) := rfl
      rw [hvec, hscal,
        c5_zip i vss o c h l w hv (t :: rest) 0 (by simpa using hlen) hts]

/-- C5 (witness): for timestamp 1 the two shapes agree. -/
theorem c5_witness :
    mergeBars [vecItem "ema20" [.num 1] [.num 5] .null .null .null .null .null]
      = mergeBars [scalarItem "ema20" [.num 1] [.num 5] .null .null .null .null .null] :=
  c5_amended "ema20" [.num 1] [.num 5] .null .null .null .null .null rfl
    (by
      intro t ht
      simp only [List.mem_singleton] at ht
      exact ⟨1, ht, one_ne_zero⟩)
    (by
      intro x hx
      simp at hx
      exact Or.inl hx)

/-- C8 (counterexample): a NaN indicator value flows through `reshape`
unchanged and `json.dumps` (default `allow_nan=True`) serializes it as
the bare token `NaN`, not as `null` — the serialized document of this
run contains the substring `NaN`. -/
theorem c8_counterexample :
    (reshape [⟨"ema20", .arr [.obj [("timestamp", .num 1), ("value", .nan),
                                     ("close", .num 5)]]⟩] 0).map (fun s => s.ema20)
      = .ok .nan
    ∧ (gistContent [⟨"ema20", .arr [.obj [("timestamp", .num 1), ("value", .nan),
                                           ("close", .num 5)]]⟩] 0).map
        (fun s => hasChunk "NaN".toList s.toList)
      = .ok true
    ∧ dumps .nan = "NaN"
    ∧ ("NaN" : String) ≠ "null" := by
  refine ⟨by rfl, by rfl, rfl, by decide⟩

/-- C8 (amended): the serializer renders the non-finite values as the
tokens `NaN`, `Infinity` and `-Infinity` (the `json.dumps` default, since
`push_gist` does not pass `allow_nan=False`), none of which is the `null`
token — non-finite values are passed through, not nulled. -/
theorem c8_amended :
    dumps .nan = "NaN" ∧ dumps .inf = "Infinity" ∧ dumps .ninf = "-Infinity"
    ∧ dumps .null = "null"
    ∧ ("NaN" : String) ≠ "null" ∧ ("Infinity" : String) ≠ "null"
    ∧ ("-Infinity" : String) ≠ "null" :=
  ⟨rfl, rfl, rfl, rfl, by decide, by decide, by decide⟩
